import Mathlib

/-!
Path matching of go-import-redirector: `main.go` and `godoc/godoc.go`.

A shallow embedding of the two HTTP handlers of the repository, `redirect`
(file `main.go`) and the closure returned by `Redirect` (file
`godoc/godoc.go`), and of the start-up configuration of `main`.

Modelling conventions.

* A Go `string` is a finite sequence of bytes; here it is a finite sequence of
  symbols, `Str := List Char`, one symbol standing for one byte.  The code uses
  only equality, concatenation, slicing, `strings.HasPrefix`,
  `strings.HasSuffix`, `strings.TrimSuffix` and `strings.Index` with the
  one-symbol separator "/"; all of them are sequence operations, and the slices
  are taken under guards that keep their bounds inside the string.
* The package-level variables of `main.go` (`godoc`, `vcs`, `importPath`,
  `repoPath`, `wildcard`) are the fields of `Main.Config`, passed explicitly.
* A handler is a function from the request (its `Host` and `URL.Path`) to the
  action it performs on the response writer: `http.NotFound`, `http.Redirect`
  with its target and code 302, the plain body "pong", or the execution of the
  HTML template on a `data` value.
-/

/-- Go strings as sequences of symbols. -/
abbrev Str := List Char

/-- The part of `*http.Request` the handlers read: `req.Host` and `req.URL.Path`. -/
structure Request where
  Host : Str
  Path : Str
deriving DecidableEq, Repr

namespace strings

/-- Go `strings.HasPrefix(s, prefix)`:
`len(s) >= len(prefix) && s[:len(prefix)] == prefix`. -/
def HasPrefix (s pre : Str) : Bool :=
  decide (s.length ≥ pre.length) && (s.take pre.length == pre)

/-- Go `strings.HasSuffix(s, suffix)`:
`len(s) >= len(suffix) && s[len(s)-len(suffix):] == suffix`. -/
def HasSuffix (s suf : Str) : Bool :=
  decide (s.length ≥ suf.length) && (s.drop (s.length - suf.length) == suf)

/-- Go `strings.TrimSuffix(s, suffix)`: `s[:len(s)-len(suffix)]` when `s` has the
suffix, `s` unchanged otherwise. -/
def TrimSuffix (s suf : Str) : Str :=
  if HasSuffix s suf then s.take (s.length - suf.length) else s

/-- Go `strings.Index(s, substr)`: the index of the first instance of `substr`
in `s`, or `-1` when there is none. -/
def Index : Str → Str → Int
  | [], sub => if HasPrefix [] sub then 0 else -1
  | c :: t, sub =>
    if HasPrefix (c :: t) sub then 0
    else
      let r := Index t sub
      if r < 0 then -1 else r + 1

end strings

namespace Main

/-- The package-level variables of `main.go` that `redirect` reads: the flags
`-godoc` and `-vcs`, and `importPath`, `repoPath`, `wildcard` set by `main`. -/
structure Config where
  godoc : Str
  vcs : Str
  importPath : Str
  repoPath : Str
  wildcard : Bool
deriving DecidableEq, Repr

/-- The struct `data` of `main.go` given to the template. -/
structure data where
  ImportRoot : Str
  VCS : Str
  VCSRoot : Str
  GoDoc : Str
deriving DecidableEq, Repr

/-- What `redirect` does with the response writer. -/
inductive Response where
  /-- `http.NotFound(w, req)`: status 404. -/
  | notFound
  /-- `http.Redirect(w, req, url, 302)`. -/
  | found (url : Str)
  /-- `tmpl.Execute(&buf, d)` followed by `w.Write(buf.Bytes())`. -/
  | page (d : data)
deriving DecidableEq, Repr

/-- The start-up configuration of `main` (lines 101-113), for the two positional
arguments: `none` stands for `log.Fatal`. -/
def configure (godoc vcs imp repo : Str) : Option Config :=
  if strings.HasSuffix imp "/*".toList != strings.HasSuffix repo "/*".toList then
    none
  else if strings.HasSuffix imp "/*".toList then
    some
      { godoc := godoc, vcs := vcs,
        importPath := strings.TrimSuffix imp "/*".toList,
        repoPath := strings.TrimSuffix repo "/*".toList,
        wildcard := true }
  else
    some
      { godoc := godoc, vcs := vcs, importPath := imp, repoPath := repo,
        wildcard := false }

/-- The handler `redirect` of `main.go`. -/
def redirect (cfg : Config) (req : Request) : Response :=
  let path := strings.TrimSuffix (req.Host ++ req.Path) "/".toList
  if cfg.wildcard then
    if path = cfg.importPath then
      .found (cfg.godoc ++ cfg.importPath)
    else if !strings.HasPrefix path (cfg.importPath ++ "/".toList) then
      .notFound
    else
      let elem := path.drop (cfg.importPath.length + 1)
      let i := strings.Index elem "/".toList
      let elem1 := if i ≥ 0 then elem.take i.toNat else elem
      let suffix := if i ≥ 0 then elem.drop i.toNat else []
      let importRoot := cfg.importPath ++ "/".toList ++ elem1
      let repoRoot := cfg.repoPath ++ "/".toList ++ elem1
      .page
        { ImportRoot := importRoot, VCS := cfg.vcs, VCSRoot := repoRoot,
          GoDoc := cfg.godoc ++ importRoot ++ suffix }
  else
    if path ≠ cfg.importPath ∧ !strings.HasPrefix path (cfg.importPath ++ "/".toList) then
      .notFound
    else
      let importRoot := cfg.importPath
      let repoRoot := cfg.repoPath
      let suffix := path.drop cfg.importPath.length
      .page
        { ImportRoot := importRoot, VCS := cfg.vcs, VCSRoot := repoRoot,
          GoDoc := cfg.godoc ++ importRoot ++ suffix }

end Main

namespace Godoc

/-- The struct `data` of `godoc/godoc.go` given to the template. -/
structure data where
  ImportRoot : Str
  VCS : Str
  VCSRoot : Str
  Suffix : Str
deriving DecidableEq, Repr

/-- What the handler returned by `Redirect` does with the response writer. -/
inductive Response where
  /-- `fmt.Fprintf(w, "pong")`: status 200 with this body. -/
  | ok (body : Str)
  /-- `http.NotFound(w, req)`: status 404. -/
  | notFound
  /-- `http.Redirect(w, req, url, 302)`. -/
  | found (url : Str)
  /-- `tmpl.Execute(&buf, d)`, then the header `Cache-Control` is set and the
  buffer written. -/
  | page (d : data) (cacheControl : Str)
deriving DecidableEq, Repr

/-- The variables captured by the closure that `Redirect` returns. -/
structure Env where
  vcs : Str
  importPath : Str
  repoPath : Str
  wildcard : Bool
deriving DecidableEq, Repr

/-- Lines 55-60 of `godoc.go`: the values of `wildcard`, `importPath` and
`repoPath` when the closure is built. -/
def capture (vcs importPath repoPath : Str) : Env :=
  if strings.HasSuffix importPath "/*".toList && strings.HasSuffix repoPath "/*".toList then
    { vcs := vcs,
      importPath := strings.TrimSuffix importPath "/*".toList,
      repoPath := strings.TrimSuffix repoPath "/*".toList,
      wildcard := true }
  else
    { vcs := vcs, importPath := importPath, repoPath := repoPath, wildcard := false }

/-- Lines 62-107 of `godoc.go`: the body of the closure. -/
def handler (env : Env) (req : Request) : Response :=
  if strings.HasSuffix req.Path "/.ping".toList then
    .ok "pong".toList
  else
    let path :=
      strings.TrimSuffix (strings.TrimSuffix (req.Host ++ req.Path) "@latest".toList) "/".toList
    if env.wildcard then
      if path = env.importPath then
        .found ("https://pkg.go.dev/".toList ++ env.importPath)
      else if !strings.HasPrefix path (env.importPath ++ "/".toList) then
        .notFound
      else
        let elem := path.drop (env.importPath.length + 1)
        let i := strings.Index elem "/".toList
        let elem1 := if i ≥ 0 then elem.take i.toNat else elem
        let suffix := if i ≥ 0 then elem.drop i.toNat else []
        let importRoot := env.importPath ++ "/".toList ++ elem1
        let repoRoot := env.repoPath ++ "/".toList ++ elem1
        .page
          { ImportRoot := importRoot, VCS := env.vcs, VCSRoot := repoRoot, Suffix := suffix }
          "public, max-age=300".toList
    else
      if path ≠ env.importPath ∧ !strings.HasPrefix path (env.importPath ++ "/".toList) then
        .notFound
      else
        let importRoot := env.importPath
        let repoRoot := env.repoPath
        let suffix := path.drop env.importPath.length
        .page
          { ImportRoot := importRoot, VCS := env.vcs, VCSRoot := repoRoot, Suffix := suffix }
          "public, max-age=300".toList

/-- The function `Redirect` of `godoc.go`: the handler for `vcs`, `importPath`, `repoPath`. -/
def Redirect (vcs importPath repoPath : Str) : Request → Response :=
  handler (capture vcs importPath repoPath)

end Godoc

/-- The relation "same outcome" between the action of `redirect` of `main.go`
under `cfg` and the action of the `godoc.Redirect` handler: both 404, or both a
302 to the documentation root of the stored import path (each with its own
documentation base), or both a page with the same import root, VCS and
repository root, where the documentation link of `main.go` is its base followed
by the import root and the suffix computed by `godoc.go`. -/
def sameOutcome (cfg : Main.Config) : Main.Response → Godoc.Response → Prop
  | .notFound, .notFound => True
  | .found u, .found v =>
      u = cfg.godoc ++ cfg.importPath ∧ v = "https://pkg.go.dev/".toList ++ cfg.importPath
  | .page d, .page e _ =>
      d.ImportRoot = e.ImportRoot ∧ d.VCS = e.VCS ∧ d.VCSRoot = e.VCSRoot ∧
        d.GoDoc = cfg.godoc ++ e.ImportRoot ++ e.Suffix
  | _, _ => False

/-- The body of the closure of `godoc.go` below the health check (lines 68-106), as a
function of the value of its variable `path`; `Godoc.handler_of_not_ping` relates it to
`Godoc.handler`. -/
def Godoc.serve (env : Godoc.Env) (path : Str) : Godoc.Response :=
  if env.wildcard then
    let elem := path.drop (env.importPath.length + 1)
    let i := strings.Index elem ['/']
    let elem1 := if i ≥ 0 then elem.take i.toNat else elem
    let suffix := if i ≥ 0 then elem.drop i.toNat else []
    if path = env.importPath then
      .found ("https://pkg.go.dev/".toList ++ env.importPath)
    else if (!strings.HasPrefix path (env.importPath ++ ['/'])) = true then
      .notFound
    else
      .page
        { ImportRoot := env.importPath ++ ['/'] ++ elem1, VCS := env.vcs,
          VCSRoot := env.repoPath ++ ['/'] ++ elem1, Suffix := suffix }
        "public, max-age=300".toList
  else
    if path ≠ env.importPath ∧ (!strings.HasPrefix path (env.importPath ++ ['/'])) = true then
      .notFound
    else
      .page
        { ImportRoot := env.importPath, VCS := env.vcs, VCSRoot := env.repoPath,
          Suffix := path.drop env.importPath.length }
        "public, max-age=300".toList

/-- The configuration of the first example of the package comment of `main.go`. -/
def cfg9fans : Main.Config :=
  { godoc := "https://godoc.org/".toList, vcs := "git".toList,
    importPath := "9fans.net/go".toList, repoPath := "https://github.com/9fans/go".toList,
    wildcard := false }

/-- The configuration of the second example of the package comment of `main.go`. -/
def cfgRsc : Main.Config :=
  { godoc := "https://godoc.org/".toList, vcs := "git".toList,
    importPath := "rsc.io".toList, repoPath := "https://github.com/rsc".toList,
    wildcard := true }

/-! ## Lemmas on the string primitives -/

namespace strings

theorem HasPrefix_iff (s pre : Str) : HasPrefix s pre = true ↔ ∃ t, s = pre ++ t := by
  unfold HasPrefix
  simp only [Bool.and_eq_true, decide_eq_true_eq, beq_iff_eq]
  constructor
  · rintro ⟨_, h⟩
    have h2 := List.take_append_drop pre.length s
    rw [h] at h2
    exact ⟨s.drop pre.length, h2.symm⟩
  · rintro ⟨t, rfl⟩
    simp

theorem HasSuffix_iff (s suf : Str) : HasSuffix s suf = true ↔ ∃ t, s = t ++ suf := by
  unfold HasSuffix
  simp only [Bool.and_eq_true, decide_eq_true_eq, beq_iff_eq]
  constructor
  · rintro ⟨_, h⟩
    have h2 := List.take_append_drop (s.length - suf.length) s
    rw [h] at h2
    exact ⟨s.take (s.length - suf.length), h2.symm⟩
  · rintro ⟨t, rfl⟩
    simp

theorem HasSuffix_append (t suf : Str) : HasSuffix (t ++ suf) suf = true :=
  (HasSuffix_iff _ _).2 ⟨t, rfl⟩

theorem TrimSuffix_append (t suf : Str) : TrimSuffix (t ++ suf) suf = t := by
  unfold TrimSuffix
  rw [if_pos (HasSuffix_append t suf)]
  simp

theorem TrimSuffix_of_not (s suf : Str) (h : HasSuffix s suf = false) : TrimSuffix s suf = s := by
  unfold TrimSuffix
  simp [h]

theorem slash_toList : "/".toList = ['/'] := rfl

theorem HasSuffix_eq_false_iff (s suf : Str) :
    HasSuffix s suf = false ↔ ¬ ∃ t, s = t ++ suf := by
  rw [← HasSuffix_iff, Bool.not_eq_true]

theorem HasPrefix_eq_false_iff (s pre : Str) :
    HasPrefix s pre = false ↔ ¬ ∃ t, s = pre ++ t := by
  rw [← HasPrefix_iff, Bool.not_eq_true]

/-- The two cases of `TrimSuffix`: nothing to remove, or exactly one copy removed. -/
theorem TrimSuffix_cases (s suf : Str) :
    (HasSuffix s suf = false ∧ TrimSuffix s suf = s) ∨ s = TrimSuffix s suf ++ suf := by
  cases h : HasSuffix s suf
  · exact Or.inl ⟨rfl, TrimSuffix_of_not s suf h⟩
  · obtain ⟨t, rfl⟩ := (HasSuffix_iff s suf).1 h
    exact Or.inr (by rw [TrimSuffix_append])

/-- For a root that does not end in "/", matching the request path after the
removal of one trailing "/" is the same as matching it before. -/
theorem match_TrimSuffix_slash (R X : Str) (hR : HasSuffix R ['/'] = false) :
    (TrimSuffix X ['/'] = R ∨ HasPrefix (TrimSuffix X ['/']) (R ++ ['/']) = true) ↔
      (X = R ∨ HasPrefix X (R ++ ['/']) = true) := by
  rcases TrimSuffix_cases X ['/'] with ⟨_, h⟩ | h
  · rw [h]
  · generalize TrimSuffix X ['/'] = p at h
    subst h
    simp only [HasPrefix_iff]
    constructor
    · rintro (rfl | ⟨t, rfl⟩)
      · exact Or.inr ⟨[], by simp⟩
      · exact Or.inr ⟨t ++ ['/'], by simp⟩
    · rintro (h | ⟨t, h⟩)
      · exact absurd ⟨p, h.symm⟩ ((HasSuffix_eq_false_iff _ _).1 hR)
      · rcases List.eq_nil_or_concat t with rfl | ⟨t1, c, rfl⟩
        · left
          simpa using h
        · right
          refine ⟨t1, ?_⟩
          rw [List.concat_eq_append, ← List.append_assoc] at h
          exact (List.append_inj' h rfl).1

theorem HasPrefix_slash_cons (c : Char) (t : Str) :
    HasPrefix (c :: t) ['/'] = decide (c = '/') := by
  unfold HasPrefix
  by_cases hc : c = '/' <;> simp [hc]

theorem Index_nil_slash : Index [] ['/'] = -1 := by
  decide

theorem Index_cons_slash (c : Char) (t : Str) :
    Index (c :: t) ['/'] =
      if c = '/' then 0 else if Index t ['/'] < 0 then -1 else Index t ['/'] + 1 := by
  rw [Index, HasPrefix_slash_cons]
  by_cases hc : c = '/' <;> simp [hc]

/-- No "/" in `s`: `Index` answers `-1`. -/
theorem Index_slash_of_not_mem (s : Str) (h : '/' ∉ s) : Index s ['/'] = -1 := by
  induction s with
  | nil => exact Index_nil_slash
  | cons c t ih =>
    rw [List.mem_cons, not_or] at h
    rw [Index_cons_slash, if_neg (fun hc => h.1 hc.symm), ih h.2]
    simp

/-- The first "/" of `e ++ "/" ++ r`, for `e` without "/", is at `len(e)`. -/
theorem Index_slash_append (e r : Str) (h : '/' ∉ e) :
    Index (e ++ '/' :: r) ['/'] = e.length := by
  induction e with
  | nil => simp [Index_cons_slash]
  | cons c t ih =>
    rw [List.mem_cons, not_or] at h
    rw [List.cons_append, Index_cons_slash, if_neg (fun hc => h.1 hc.symm), ih h.2]
    simp

/-- A non-negative `Index` points at a "/". -/
theorem drop_Index_slash (s : Str) (h : 0 ≤ Index s ['/']) :
    ∃ t, s.drop (Index s ['/']).toNat = '/' :: t := by
  induction s with
  | nil => rw [Index_nil_slash] at h; omega
  | cons c t ih =>
    rw [Index_cons_slash] at h ⊢
    by_cases hc : c = '/'
    · simp [hc]
    · rw [if_neg hc] at h ⊢
      by_cases hlt : Index t ['/'] < 0
      · rw [if_pos hlt] at h; omega
      · rw [if_neg hlt]
        obtain ⟨u, hu⟩ := ih (by omega)
        refine ⟨u, ?_⟩
        have : (Index t ['/'] + 1).toNat = (Index t ['/']).toNat + 1 := by omega
        rw [this, List.drop_succ_cons, hu]

theorem HasSuffix_slash_iff (s : Str) : HasSuffix s ['/'] = true ↔ s.getLast? = some '/' := by
  rw [HasSuffix_iff, List.getLast?_eq_some_iff]

/-- Whether `a ++ b` ends in "/" is decided by `b`, when `b` is not empty. -/
theorem HasSuffix_slash_append (a b : Str) (hb : b ≠ []) :
    HasSuffix (a ++ b) ['/'] = HasSuffix b ['/'] := by
  rw [Bool.eq_iff_iff, HasSuffix_slash_iff, HasSuffix_slash_iff, List.getLast?_append]
  rcases List.eq_nil_or_concat b with rfl | ⟨t, c, rfl⟩
  · exact absurd rfl hb
  · simp

theorem HasSuffix_slash_of_not_mem (e : Str) (h : '/' ∉ e) : HasSuffix e ['/'] = false := by
  rw [HasSuffix_eq_false_iff]
  rintro ⟨t, rfl⟩
  exact h (by simp)

theorem HasPrefix_append (pre t : Str) : HasPrefix (pre ++ t) pre = true :=
  (HasPrefix_iff _ _).2 ⟨t, rfl⟩

end strings

/-! ## `main.go` -/

/-- The non-wildcard branch of `redirect`. -/
theorem Main.redirect_of_not_wildcard (cfg : Main.Config) (req : Request)
    (hw : cfg.wildcard = false) :
    Main.redirect cfg req =
      if strings.TrimSuffix (req.Host ++ req.Path) ['/'] ≠ cfg.importPath ∧
          (!strings.HasPrefix (strings.TrimSuffix (req.Host ++ req.Path) ['/'])
            (cfg.importPath ++ ['/'])) = true then
        .notFound
      else
        .page
          { ImportRoot := cfg.importPath, VCS := cfg.vcs, VCSRoot := cfg.repoPath,
            GoDoc := cfg.godoc ++ cfg.importPath ++
              (strings.TrimSuffix (req.Host ++ req.Path) ['/']).drop cfg.importPath.length } := by
  unfold Main.redirect
  rw [hw]
  rfl

/-- The wildcard branch of `redirect`. -/
theorem Main.redirect_of_wildcard (cfg : Main.Config) (req : Request)
    (hw : cfg.wildcard = true) :
    Main.redirect cfg req =
      (let path := strings.TrimSuffix (req.Host ++ req.Path) ['/']
       let elem := path.drop (cfg.importPath.length + 1)
       let i := strings.Index elem ['/']
       let elem1 := if i ≥ 0 then elem.take i.toNat else elem
       let suffix := if i ≥ 0 then elem.drop i.toNat else []
       if path = cfg.importPath then
         .found (cfg.godoc ++ cfg.importPath)
       else if (!strings.HasPrefix path (cfg.importPath ++ ['/'])) = true then
         .notFound
       else
         .page
           { ImportRoot := cfg.importPath ++ ['/'] ++ elem1, VCS := cfg.vcs,
             VCSRoot := cfg.repoPath ++ ['/'] ++ elem1,
             GoDoc := cfg.godoc ++ (cfg.importPath ++ ['/'] ++ elem1) ++ suffix }) := by
  unfold Main.redirect
  rw [hw]
  rfl

/-- C1: `redirect` of `main.go` in non-wildcard mode, for a stored import path `R`
that does not end in "/": the answer is 404 exactly when `Host + URL.Path` is neither
`R` nor prefixed by `R + "/"`; otherwise the page is rendered with `ImportRoot = R`,
`VCSRoot = repoPath`, the suffix being the request path with one trailing "/" removed
minus its prefix `R`, and `GoDoc` the godoc base followed by `R` and the suffix. -/
theorem redirect_nonwildcard (cfg : Main.Config) (req : Request)
    (hw : cfg.wildcard = false)
    (hR : strings.HasSuffix cfg.importPath "/".toList = false) :
    (Main.redirect cfg req = .notFound ↔
      (req.Host ++ req.Path ≠ cfg.importPath ∧
        strings.HasPrefix (req.Host ++ req.Path) (cfg.importPath ++ "/".toList) = false)) ∧
    (¬ (req.Host ++ req.Path ≠ cfg.importPath ∧
        strings.HasPrefix (req.Host ++ req.Path) (cfg.importPath ++ "/".toList) = false) →
      cfg.importPath ++
          (strings.TrimSuffix (req.Host ++ req.Path) "/".toList).drop cfg.importPath.length =
        strings.TrimSuffix (req.Host ++ req.Path) "/".toList ∧
      Main.redirect cfg req = .page
        { ImportRoot := cfg.importPath, VCS := cfg.vcs, VCSRoot := cfg.repoPath,
          GoDoc := cfg.godoc ++ cfg.importPath ++
            (strings.TrimSuffix (req.Host ++ req.Path) "/".toList).drop cfg.importPath.length }) := by
  rw [strings.slash_toList] at *
  have hm := strings.match_TrimSuffix_slash cfg.importPath (req.Host ++ req.Path) hR
  have key : (strings.TrimSuffix (req.Host ++ req.Path) ['/'] ≠ cfg.importPath ∧
      (!strings.HasPrefix (strings.TrimSuffix (req.Host ++ req.Path) ['/'])
        (cfg.importPath ++ ['/'])) = true) ↔
      (req.Host ++ req.Path ≠ cfg.importPath ∧
        strings.HasPrefix (req.Host ++ req.Path) (cfg.importPath ++ ['/']) = false) := by
    rw [Bool.not_eq_true', ← Bool.not_eq_true, ← Bool.not_eq_true, ← not_or, ← not_or, hm]
  rw [Main.redirect_of_not_wildcard cfg req hw, ← key]
  constructor
  · by_cases h : strings.TrimSuffix (req.Host ++ req.Path) ['/'] ≠ cfg.importPath ∧
        (!strings.HasPrefix (strings.TrimSuffix (req.Host ++ req.Path) ['/'])
          (cfg.importPath ++ ['/'])) = true
    · rw [if_pos h]
      exact iff_of_true rfl h
    · rw [if_neg h]
      exact iff_of_false (fun hc => by cases hc) h
  · intro hno
    refine ⟨?_, by rw [if_neg hno]⟩
    rw [not_and_or, not_not, Bool.not_eq_true', Bool.not_eq_false, strings.HasPrefix_iff] at hno
    rcases hno with h | ⟨t, h⟩
    · rw [h]; simp
    · rw [h]; simp

/-- Witness of C1: the example `9fans.net/go/acme/editinacme`. -/
theorem redirect_nonwildcard_witness :
    cfg9fans.wildcard = false ∧
    strings.HasSuffix cfg9fans.importPath "/".toList = false ∧
    "9fans.net/go".toList ++ "/acme/editinacme".toList =
      strings.TrimSuffix ("9fans.net".toList ++ "/go/acme/editinacme".toList) "/".toList ∧
    Main.redirect cfg9fans ⟨"9fans.net".toList, "/go/acme/editinacme".toList⟩ = .page
      { ImportRoot := "9fans.net/go".toList, VCS := "git".toList,
        VCSRoot := "https://github.com/9fans/go".toList,
        GoDoc := "https://godoc.org/".toList ++ "9fans.net/go".toList ++
          "/acme/editinacme".toList } :=
  ⟨rfl, rfl,
    (redirect_nonwildcard cfg9fans ⟨"9fans.net".toList, "/go/acme/editinacme".toList⟩
      rfl rfl).2 (by decide)⟩

namespace strings

/-- The wildcard element and the suffix that the handlers split off
`elem ++ rest`, for `elem` without "/" and `rest` empty or starting with "/". -/
theorem split_elem_rest (elem rest : Str) (hns : '/' ∉ elem)
    (hrest : rest = [] ∨ HasPrefix rest ['/'] = true) :
    (if Index (elem ++ rest) ['/'] ≥ 0 then
        (elem ++ rest).take (Index (elem ++ rest) ['/']).toNat else elem ++ rest) = elem ∧
    (if Index (elem ++ rest) ['/'] ≥ 0 then
        (elem ++ rest).drop (Index (elem ++ rest) ['/']).toNat else []) = rest := by
  rcases hrest with rfl | h
  · rw [List.append_nil, Index_slash_of_not_mem elem hns]
    exact ⟨rfl, rfl⟩
  · obtain ⟨r, rfl⟩ := (HasPrefix_iff _ _).1 h
    rw [List.singleton_append, Index_slash_append elem r hns]
    simp

/-- The request path `R/elem rest` does not end in "/", is not `R`, and lies under `R/`. -/
theorem path_elem_rest (R elem rest : Str) (he : elem ≠ []) (hns : '/' ∉ elem)
    (hrest : rest = [] ∨ (HasPrefix rest ['/'] = true ∧ HasSuffix rest ['/'] = false)) :
    TrimSuffix (R ++ ['/'] ++ elem ++ rest) ['/'] = R ++ ['/'] ++ elem ++ rest ∧
    R ++ ['/'] ++ elem ++ rest ≠ R ∧
    HasPrefix (R ++ ['/'] ++ elem ++ rest) (R ++ ['/']) = true ∧
    (R ++ ['/'] ++ elem ++ rest).drop (R.length + 1) = elem ++ rest := by
  refine ⟨TrimSuffix_of_not _ _ ?_, ?_, ?_, ?_⟩
  · rcases hrest with rfl | ⟨_, h⟩
    · rw [List.append_nil, HasSuffix_slash_append _ _ he]
      exact HasSuffix_slash_of_not_mem elem hns
    · have hne : rest ≠ [] := by
        rintro rfl
        simp [HasPrefix] at *
      rw [HasSuffix_slash_append _ _ hne]
      exact h
  · intro h
    have := congrArg List.length h
    simp at this
  · rw [List.append_assoc (R ++ ['/'])]
    exact HasPrefix_append _ _
  · rw [List.append_assoc (R ++ ['/'])]
    have hl : R.length + 1 = (R ++ ['/']).length := by simp
    rw [hl, List.drop_left]

end strings

/-- C2: `redirect` of `main.go` in wildcard mode: the request `R/elem rest`, for a
non-empty `elem` without "/" and a `rest` that is empty or that starts with "/" and has
no trailing "/", is rendered with `ImportRoot = R/elem`, `VCSRoot = T/elem` and the
documentation link `godoc + R/elem + rest`, that is with suffix `rest`: only the first
segment after `R` goes into the repository root. -/
theorem redirect_wildcard (cfg : Main.Config) (req : Request) (elem rest : Str)
    (hw : cfg.wildcard = true)
    (he : elem ≠ []) (hns : '/' ∉ elem)
    (hrest : rest = [] ∨
      (strings.HasPrefix rest "/".toList = true ∧ strings.HasSuffix rest "/".toList = false))
    (hX : req.Host ++ req.Path = cfg.importPath ++ "/".toList ++ elem ++ rest) :
    Main.redirect cfg req = .page
      { ImportRoot := cfg.importPath ++ "/".toList ++ elem, VCS := cfg.vcs,
        VCSRoot := cfg.repoPath ++ "/".toList ++ elem,
        GoDoc := cfg.godoc ++ (cfg.importPath ++ "/".toList ++ elem) ++ rest } := by
  rw [strings.slash_toList] at *
  obtain ⟨h1, h2, h3, h4⟩ := strings.path_elem_rest cfg.importPath elem rest he hns hrest
  obtain ⟨h5, h6⟩ := strings.split_elem_rest elem rest hns (hrest.imp id And.left)
  rw [Main.redirect_of_wildcard cfg req hw, hX]
  simp only [h1, h4, h5, h6]
  rw [if_neg h2, h3]
  rfl

/-- Witness of C2: the example `rsc.io/x86/x86asm`. -/
theorem redirect_wildcard_witness :
    cfgRsc.wildcard = true ∧ "x86".toList ≠ [] ∧ '/' ∉ "x86".toList ∧
    ("/x86asm".toList = [] ∨
      (strings.HasPrefix "/x86asm".toList "/".toList = true ∧
        strings.HasSuffix "/x86asm".toList "/".toList = false)) ∧
    "rsc.io".toList ++ "/x86/x86asm".toList =
      cfgRsc.importPath ++ "/".toList ++ "x86".toList ++ "/x86asm".toList ∧
    Main.redirect cfgRsc ⟨"rsc.io".toList, "/x86/x86asm".toList⟩ = .page
      { ImportRoot := "rsc.io/x86".toList, VCS := "git".toList,
        VCSRoot := "https://github.com/rsc/x86".toList,
        GoDoc := "https://godoc.org/rsc.io/x86/x86asm".toList } :=
  ⟨rfl, by decide, by decide, by decide, by decide,
    redirect_wildcard cfgRsc ⟨"rsc.io".toList, "/x86/x86asm".toList⟩ "x86".toList
      "/x86asm".toList rfl (by decide) (by decide) (by decide) (by decide)⟩

/-- C3: `redirect` of `main.go` answers with a 302 exactly when the configuration is in
wildcard mode and `Host + URL.Path` with one trailing "/" removed is the stored
`importPath`; the target is then the godoc base followed by `importPath` and no page is
rendered; in non-wildcard mode no request is answered with a 302. -/
theorem redirect_found_iff (cfg : Main.Config) (req : Request) :
    (Main.redirect cfg req = .found (cfg.godoc ++ cfg.importPath) ↔
      (cfg.wildcard = true ∧
        strings.TrimSuffix (req.Host ++ req.Path) "/".toList = cfg.importPath)) ∧
    (∀ url, Main.redirect cfg req = .found url →
      url = cfg.godoc ++ cfg.importPath ∧ ∀ d, Main.redirect cfg req ≠ .page d) ∧
    (cfg.wildcard = false → ∀ url, Main.redirect cfg req ≠ .found url) := by
  rw [strings.slash_toList]
  have main : ∀ url, Main.redirect cfg req = .found url →
      url = cfg.godoc ++ cfg.importPath ∧ cfg.wildcard = true ∧
        strings.TrimSuffix (req.Host ++ req.Path) ['/'] = cfg.importPath := by
    intro url h
    cases hw : cfg.wildcard
    · rw [Main.redirect_of_not_wildcard cfg req hw] at h
      split_ifs at h
    · rw [Main.redirect_of_wildcard cfg req hw] at h
      simp only [] at h
      split_ifs at h with h1
      exact ⟨(Main.Response.found.inj h).symm, rfl, h1⟩
  refine ⟨⟨fun h => (main _ h).2, ?_⟩, fun url h => ⟨(main url h).1, ?_⟩, ?_⟩
  · rintro ⟨hw, hp⟩
    rw [Main.redirect_of_wildcard cfg req hw]
    simp only [hp, if_true]
  · intro d hd
    rw [h] at hd
    cases hd
  · intro hw url h
    rw [(main url h).2.1] at hw
    cases hw

/-! ## `godoc/godoc.go` -/

/-- The health check of the handler: a `URL.Path` ending in "/.ping". -/
theorem Godoc.handler_of_ping (env : Godoc.Env) (req : Request)
    (h : strings.HasSuffix req.Path "/.ping".toList = true) :
    Godoc.handler env req = .ok "pong".toList := by
  unfold Godoc.handler
  rw [if_pos h]

/-- Below the health check the handler is `Godoc.serve` at `Host + URL.Path` with one
trailing "@latest" and then one trailing "/" removed. -/
theorem Godoc.handler_of_not_ping (env : Godoc.Env) (req : Request)
    (h : strings.HasSuffix req.Path "/.ping".toList = false) :
    Godoc.handler env req =
      Godoc.serve env
        (strings.TrimSuffix (strings.TrimSuffix (req.Host ++ req.Path) "@latest".toList)
          ['/']) := by
  unfold Godoc.handler Godoc.serve
  rw [h]
  cases env.wildcard <;> rfl

/-- C4, as the code has it: for every `vcs`, `importPath`, `repoPath` and every request
whose `URL.Path` ends in "/.ping", the handler returned by `godoc.Redirect` answers with
the body "pong" (status 200) and reaches none of the matching logic. -/
theorem Redirect_ping (vcs importPath repoPath : Str) (req : Request)
    (h : strings.HasSuffix req.Path "/.ping".toList = true) :
    Godoc.Redirect vcs importPath repoPath req = .ok "pong".toList :=
  Godoc.handler_of_ping _ req h

/-- Witness of C4: the request `rsc.io/x/.ping`. -/
theorem Redirect_ping_witness :
    strings.HasSuffix "/x/.ping".toList "/.ping".toList = true ∧
    Godoc.Redirect "git".toList "rsc.io/*".toList "https://github.com/rsc/*".toList
      ⟨"rsc.io".toList, "/x/.ping".toList⟩ = .ok "pong".toList :=
  ⟨by decide, Redirect_ping "git".toList "rsc.io/*".toList "https://github.com/rsc/*".toList
    ⟨"rsc.io".toList, "/x/.ping".toList⟩ (by decide)⟩

/-- C4 as stated fails: the `URL.Path` "/x.ping" ends in ".ping", and the handler for
`rsc.io/*` renders the page of the import root `rsc.io/x.ping` instead of "pong". -/
theorem Redirect_dot_ping_not_pong :
    strings.HasSuffix "/x.ping".toList ".ping".toList = true ∧
    Godoc.Redirect "git".toList "rsc.io/*".toList "https://github.com/rsc/*".toList
      ⟨"rsc.io".toList, "/x.ping".toList⟩ =
      .page
        { ImportRoot := "rsc.io/x.ping".toList, VCS := "git".toList,
          VCSRoot := "https://github.com/rsc/x.ping".toList, Suffix := [] }
        "public, max-age=300".toList := by
  decide

namespace strings

/-- A string that has the non-empty suffix `suf` ends in the last symbol of `suf`. -/
theorem getLast?_of_HasSuffix (s suf : Str) (hne : suf ≠ []) (h : HasSuffix s suf = true) :
    s.getLast? = suf.getLast? := by
  obtain ⟨t, rfl⟩ := (HasSuffix_iff _ _).1 h
  rcases List.eq_nil_or_concat suf with rfl | ⟨u, c, rfl⟩
  · exact absurd rfl hne
  · simp

/-- Appending a string whose last symbol is not the last symbol of `suf` gives a string
without the suffix `suf`. -/
theorem HasSuffix_append_of_getLast?_ne (p a suf : Str) (ha : a ≠ []) (hs : suf ≠ [])
    (hne : a.getLast? ≠ suf.getLast?) : HasSuffix (p ++ a) suf = false := by
  rw [← Bool.not_eq_true]
  intro h
  apply hne
  rw [← getLast?_of_HasSuffix _ _ hs h]
  rcases List.eq_nil_or_concat a with rfl | ⟨u, c, rfl⟩
  · exact absurd rfl ha
  · simp

end strings

/-- What `Godoc.serve` renders: the suffix is empty or starts with "/", and the import
root followed by the suffix is the path. -/
theorem Godoc.serve_page (env : Godoc.Env) (path : Str) (d : Godoc.data) (cc : Str)
    (h : Godoc.serve env path = .page d cc) :
    (d.Suffix = [] ∨ strings.HasPrefix d.Suffix ['/'] = true) ∧
      d.ImportRoot ++ d.Suffix = path := by
  unfold Godoc.serve at h
  cases hw : env.wildcard
  · rw [hw] at h
    simp only [Bool.false_eq_true, if_false] at h
    split_ifs at h with hc
    obtain ⟨rfl, -⟩ := Godoc.Response.page.inj h
    rw [not_and_or, not_not, Bool.not_eq_true', Bool.not_eq_false, strings.HasPrefix_iff] at hc
    rcases hc with hc | ⟨t, hc⟩
    · rw [hc]
      simp
    · rw [hc]
      refine ⟨Or.inr ?_, by simp⟩
      simp [strings.HasPrefix_iff]
  · rw [hw] at h
    simp only [if_true] at h
    split_ifs at h with _ h2 h3
    · obtain ⟨rfl, -⟩ := Godoc.Response.page.inj h
      rw [Bool.not_eq_true', Bool.not_eq_false, strings.HasPrefix_iff] at h2
      obtain ⟨t, rfl⟩ := h2
      obtain ⟨u, hu⟩ := strings.drop_Index_slash _ h3
      refine ⟨Or.inr ?_, ?_⟩
      · show strings.HasPrefix (List.drop _ _) ['/'] = true
        rw [hu, strings.HasPrefix_iff]
        exact ⟨u, rfl⟩
      · show env.importPath ++ ['/'] ++ List.take _ _ ++ List.drop _ _ = _
        rw [List.append_assoc, List.take_append_drop]
        have hl : env.importPath.length + 1 = (env.importPath ++ ['/']).length := by simp
        rw [hl, List.drop_left]
    · obtain ⟨rfl, -⟩ := Godoc.Response.page.inj h
      rw [Bool.not_eq_true', Bool.not_eq_false, strings.HasPrefix_iff] at h2
      obtain ⟨t, rfl⟩ := h2
      refine ⟨Or.inl rfl, ?_⟩
      show env.importPath ++ ['/'] ++ List.drop _ _ ++ [] = _
      have hl : env.importPath.length + 1 = (env.importPath ++ ['/']).length := by simp
      rw [hl, List.drop_left, List.append_nil]

/-- The handler answers "pong" only to the health check. -/
theorem Godoc.handler_not_ping_of_ne (env : Godoc.Env) (req : Request) (d : Godoc.data)
    (cc : Str) (h : Godoc.handler env req = .page d cc) :
    strings.HasSuffix req.Path "/.ping".toList = false := by
  rw [← Bool.not_eq_true]
  intro hp
  rw [Godoc.handler_of_ping env req hp] at h
  cases h

/-- C8: for every request for which the handler returned by `godoc.Redirect` renders
the page, the `Suffix` given to the template is empty or starts with "/", and
`ImportRoot` followed by `Suffix` is `Host + URL.Path` with one trailing "@latest" and
then one trailing "/" removed. -/
theorem Redirect_page_suffix (vcs importPath repoPath : Str) (req : Request)
    (d : Godoc.data) (cc : Str)
    (h : Godoc.Redirect vcs importPath repoPath req = .page d cc) :
    (d.Suffix = [] ∨ strings.HasPrefix d.Suffix "/".toList = true) ∧
      d.ImportRoot ++ d.Suffix =
        strings.TrimSuffix (strings.TrimSuffix (req.Host ++ req.Path) "@latest".toList)
          "/".toList := by
  unfold Godoc.Redirect at h
  rw [Godoc.handler_of_not_ping _ req (Godoc.handler_not_ping_of_ne _ req d cc h)] at h
  exact Godoc.serve_page _ _ d cc h

/-- Witness of C8: the request `rsc.io/x86/x86asm/@latest`. -/
theorem Redirect_page_suffix_witness :
    Godoc.Redirect "git".toList "rsc.io/*".toList "https://github.com/rsc/*".toList
        ⟨"rsc.io".toList, "/x86/x86asm/@latest".toList⟩ =
      .page
        { ImportRoot := "rsc.io/x86".toList, VCS := "git".toList,
          VCSRoot := "https://github.com/rsc/x86".toList, Suffix := "/x86asm".toList }
        "public, max-age=300".toList ∧
    (("/x86asm".toList = [] ∨ strings.HasPrefix "/x86asm".toList "/".toList = true) ∧
      "rsc.io/x86".toList ++ "/x86asm".toList =
        strings.TrimSuffix
          (strings.TrimSuffix ("rsc.io".toList ++ "/x86/x86asm/@latest".toList)
            "@latest".toList)
          "/".toList) :=
  ⟨by decide,
    Redirect_page_suffix "git".toList "rsc.io/*".toList "https://github.com/rsc/*".toList
      ⟨"rsc.io".toList, "/x86/x86asm/@latest".toList⟩
      { ImportRoot := "rsc.io/x86".toList, VCS := "git".toList,
        VCSRoot := "https://github.com/rsc/x86".toList, Suffix := "/x86asm".toList }
      "public, max-age=300".toList (by decide)⟩

/-- C9: for every configuration and every request whose `URL.Path` does not end in
"/.ping" and whose `Host + URL.Path` does not end in "@latest", the handler returned by
`godoc.Redirect` answers the request with "@latest" appended to `URL.Path` as it answers
the request itself; and "@latest" is removed before the trailing "/": a request ending
in "/@latest" is answered as the request ending in "/". -/
theorem Redirect_latest (vcs importPath repoPath : Str) (req : Request)
    (hping : strings.HasSuffix req.Path "/.ping".toList = false)
    (hlatest : strings.HasSuffix (req.Host ++ req.Path) "@latest".toList = false) :
    Godoc.Redirect vcs importPath repoPath ⟨req.Host, req.Path ++ "@latest".toList⟩ =
      Godoc.Redirect vcs importPath repoPath req ∧
    Godoc.Redirect vcs importPath repoPath ⟨req.Host, req.Path ++ "/@latest".toList⟩ =
      Godoc.Redirect vcs importPath repoPath ⟨req.Host, req.Path ++ "/".toList⟩ := by
  unfold Godoc.Redirect
  constructor
  · rw [Godoc.handler_of_not_ping _ req hping,
      Godoc.handler_of_not_ping _ ⟨req.Host, req.Path ++ "@latest".toList⟩
        (strings.HasSuffix_append_of_getLast?_ne _ _ _ (by decide) (by decide) (by decide))]
    show Godoc.serve _ (strings.TrimSuffix (strings.TrimSuffix
      (req.Host ++ (req.Path ++ "@latest".toList)) "@latest".toList) ['/']) = _
    rw [← List.append_assoc, strings.TrimSuffix_append,
      strings.TrimSuffix_of_not _ _ hlatest]
  · rw [Godoc.handler_of_not_ping _ ⟨req.Host, req.Path ++ "/@latest".toList⟩
        (strings.HasSuffix_append_of_getLast?_ne _ _ _ (by decide) (by decide) (by decide)),
      Godoc.handler_of_not_ping _ ⟨req.Host, req.Path ++ "/".toList⟩
        (strings.HasSuffix_append_of_getLast?_ne _ _ _ (by decide) (by decide) (by decide))]
    show Godoc.serve _ (strings.TrimSuffix (strings.TrimSuffix
        (req.Host ++ (req.Path ++ (['/'] ++ "@latest".toList))) "@latest".toList) ['/']) =
      Godoc.serve _ (strings.TrimSuffix (strings.TrimSuffix
        (req.Host ++ (req.Path ++ ['/'])) "@latest".toList) ['/'])
    rw [← List.append_assoc req.Path, ← List.append_assoc req.Host, strings.TrimSuffix_append,
      strings.TrimSuffix_of_not (req.Host ++ (req.Path ++ ['/'])) "@latest".toList
        (by
          rw [← List.append_assoc]
          exact strings.HasSuffix_append_of_getLast?_ne _ _ _ (by decide) (by decide)
            (by decide))]

/-- Witness of C9: the request `rsc.io/x86/x86asm`, and the same with "@latest". -/
theorem Redirect_latest_witness :
    strings.HasSuffix "/x86/x86asm".toList "/.ping".toList = false ∧
    strings.HasSuffix ("rsc.io".toList ++ "/x86/x86asm".toList) "@latest".toList = false ∧
    (Godoc.Redirect "git".toList "rsc.io/*".toList "https://github.com/rsc/*".toList
        ⟨"rsc.io".toList, "/x86/x86asm".toList ++ "@latest".toList⟩ =
      Godoc.Redirect "git".toList "rsc.io/*".toList "https://github.com/rsc/*".toList
        ⟨"rsc.io".toList, "/x86/x86asm".toList⟩ ∧
    Godoc.Redirect "git".toList "rsc.io/*".toList "https://github.com/rsc/*".toList
        ⟨"rsc.io".toList, "/x86/x86asm".toList ++ "/@latest".toList⟩ =
      Godoc.Redirect "git".toList "rsc.io/*".toList "https://github.com/rsc/*".toList
        ⟨"rsc.io".toList, "/x86/x86asm".toList ++ "/".toList⟩) :=
  ⟨by decide, by decide,
    Redirect_latest "git".toList "rsc.io/*".toList "https://github.com/rsc/*".toList
      ⟨"rsc.io".toList, "/x86/x86asm".toList⟩ (by decide) (by decide)⟩

namespace strings

theorem TrimSuffix_length_le (s suf : Str) : (TrimSuffix s suf).length ≤ s.length := by
  unfold TrimSuffix
  split_ifs
  · rw [List.length_take]
    omega
  · exact Nat.le_refl _

/-- Removing a non-empty suffix that is present shortens the string. -/
theorem TrimSuffix_length_lt (s suf : Str) (hne : suf ≠ []) (h : HasSuffix s suf = true) :
    (TrimSuffix s suf).length < s.length := by
  obtain ⟨t, rfl⟩ := (HasSuffix_iff _ _).1 h
  rw [TrimSuffix_append, List.length_append]
  have := List.length_pos.2 hne
  omega

end strings

/-- A path shorter than the stored import path is answered with 404. -/
theorem Godoc.serve_of_length_lt (env : Godoc.Env) (path : Str)
    (h : path.length < env.importPath.length) : Godoc.serve env path = .notFound := by
  have h1 : path ≠ env.importPath := by
    rintro rfl
    exact Nat.lt_irrefl _ h
  have h2 : (!strings.HasPrefix path (env.importPath ++ ['/'])) = true := by
    rw [Bool.not_eq_true', strings.HasPrefix_eq_false_iff]
    rintro ⟨t, rfl⟩
    simp at h
  unfold Godoc.serve
  cases env.wildcard
  · simp only [Bool.false_eq_true, if_false]
    rw [if_pos ⟨h1, h2⟩]
  · simp only [if_true]
    rw [if_neg h1, if_pos h2]

/-- The stored import path itself is not answered with 404. -/
theorem Godoc.serve_importPath (env : Godoc.Env) :
    Godoc.serve env env.importPath ≠ .notFound := by
  unfold Godoc.serve
  cases env.wildcard
  · simp only [Bool.false_eq_true, if_false]
    rw [if_neg (fun h => h.1 rfl)]
    intro h
    cases h
  · simp only [if_true]
    intro h
    cases h

/-- Below the health check no path is answered with "pong". -/
theorem Godoc.serve_ne_ok (env : Godoc.Env) (path body : Str) :
    Godoc.serve env path ≠ .ok body := by
  unfold Godoc.serve
  cases env.wildcard
  · simp only [Bool.false_eq_true, if_false]
    split_ifs <;> intro h <;> cases h
  · simp only [if_true]
    split_ifs <;> intro h <;> cases h

/-- For a request `Host + URL.Path` that is the stored import path, the handler answers
the request with "/" appended as it answers the request itself exactly when `URL.Path`
has no trailing "/.ping" and the stored import path has no trailing "/" or "@latest". -/
theorem Godoc.handler_trailing_slash_iff (env : Godoc.Env) (Host Path : Str)
    (hsplit : Host ++ Path = env.importPath) :
    Godoc.handler env ⟨Host, Path ++ "/".toList⟩ = Godoc.handler env ⟨Host, Path⟩ ↔
      (strings.HasSuffix Path "/.ping".toList = false ∧
        strings.HasSuffix env.importPath "/".toList = false ∧
        strings.HasSuffix env.importPath "@latest".toList = false) := by
  have hB : Godoc.handler env ⟨Host, Path ++ "/".toList⟩ = Godoc.serve env env.importPath := by
    rw [Godoc.handler_of_not_ping _ ⟨Host, Path ++ "/".toList⟩
      (strings.HasSuffix_append_of_getLast?_ne _ _ _ (by decide) (by decide) (by decide))]
    show Godoc.serve _ (strings.TrimSuffix (strings.TrimSuffix
      (Host ++ (Path ++ ['/'])) "@latest".toList) ['/']) = _
    rw [strings.TrimSuffix_of_not (Host ++ (Path ++ ['/'])) "@latest".toList
        (by
          rw [← List.append_assoc]
          exact strings.HasSuffix_append_of_getLast?_ne _ _ _ (by decide) (by decide)
            (by decide)),
      ← List.append_assoc, strings.TrimSuffix_append, hsplit]
  rw [hB, strings.slash_toList]
  cases hping : strings.HasSuffix Path "/.ping".toList
  · rw [Godoc.handler_of_not_ping _ ⟨Host, Path⟩ hping]
    show Godoc.serve env env.importPath = Godoc.serve env (strings.TrimSuffix
      (strings.TrimSuffix (Host ++ Path) "@latest".toList) ['/']) ↔ _
    rw [hsplit]
    constructor
    · intro heq
      have hlen : ¬ (strings.TrimSuffix (strings.TrimSuffix env.importPath "@latest".toList)
          ['/']).length < env.importPath.length := by
        intro hlt
        rw [Godoc.serve_of_length_lt env _ hlt] at heq
        exact Godoc.serve_importPath env heq
      refine ⟨rfl, ?_, ?_⟩
      · rw [← Bool.not_eq_true]
        intro hs
        apply hlen
        cases hl : strings.HasSuffix env.importPath "@latest".toList
        · rw [strings.TrimSuffix_of_not _ _ hl]
          exact strings.TrimSuffix_length_lt _ _ (by decide) hs
        · exact Nat.lt_of_le_of_lt (strings.TrimSuffix_length_le _ _)
            (strings.TrimSuffix_length_lt _ _ (by decide) hl)
      · rw [← Bool.not_eq_true]
        intro hl
        exact hlen (Nat.lt_of_le_of_lt (strings.TrimSuffix_length_le _ _)
          (strings.TrimSuffix_length_lt _ _ (by decide) hl))
    · rintro ⟨-, h2, h3⟩
      rw [strings.TrimSuffix_of_not _ _ h3, strings.TrimSuffix_of_not _ _ h2]
  · rw [Godoc.handler_of_ping _ ⟨Host, Path⟩ hping]
    constructor
    · intro heq
      exact absurd heq (Godoc.serve_ne_ok env _ _)
    · rintro ⟨h, -⟩
      cases h

/-- C5, as the code has it: for every configuration whose stored import root `R` ends
neither in "/" nor in "@latest", and every split of `R` into `Host` and `URL.Path`
whose `URL.Path` has no trailing "/.ping", the handler returned by `godoc.Redirect`
answers the request for `R + "/"` as it answers the request for `R`. -/
theorem Redirect_trailing_slash (vcs importPath repoPath Host Path : Str)
    (hsplit : Host ++ Path = (Godoc.capture vcs importPath repoPath).importPath)
    (hping : strings.HasSuffix Path "/.ping".toList = false)
    (hslash :
      strings.HasSuffix (Godoc.capture vcs importPath repoPath).importPath "/".toList = false)
    (hlatest :
      strings.HasSuffix (Godoc.capture vcs importPath repoPath).importPath "@latest".toList =
        false) :
    Godoc.Redirect vcs importPath repoPath ⟨Host, Path ++ "/".toList⟩ =
      Godoc.Redirect vcs importPath repoPath ⟨Host, Path⟩ :=
  (Godoc.handler_trailing_slash_iff _ Host Path hsplit).2 ⟨hping, hslash, hlatest⟩

/-- Witness of C5: the root `9fans.net/go`, split into the host `9fans.net` and the
path "/go". -/
theorem Redirect_trailing_slash_witness :
    "9fans.net".toList ++ "/go".toList =
      (Godoc.capture "git".toList "9fans.net/go".toList
        "https://github.com/9fans/go".toList).importPath ∧
    strings.HasSuffix "/go".toList "/.ping".toList = false ∧
    strings.HasSuffix (Godoc.capture "git".toList "9fans.net/go".toList
      "https://github.com/9fans/go".toList).importPath "/".toList = false ∧
    strings.HasSuffix (Godoc.capture "git".toList "9fans.net/go".toList
      "https://github.com/9fans/go".toList).importPath "@latest".toList = false ∧
    Godoc.Redirect "git".toList "9fans.net/go".toList "https://github.com/9fans/go".toList
        ⟨"9fans.net".toList, "/go".toList ++ "/".toList⟩ =
      Godoc.Redirect "git".toList "9fans.net/go".toList "https://github.com/9fans/go".toList
        ⟨"9fans.net".toList, "/go".toList⟩ :=
  ⟨by decide, by decide, by decide, by decide,
    Redirect_trailing_slash "git".toList "9fans.net/go".toList
      "https://github.com/9fans/go".toList "9fans.net".toList "/go".toList
      (by decide) (by decide) (by decide) (by decide)⟩

/-- C5 as stated fails in three ways.  With the import path `rsc.io/.ping` split into
the host `rsc.io` and the path "/.ping", the request for the root gets "pong" and the
request with "/" appended gets the page.  With the import path `rsc.io/x@latest`, and
with the import path `9fans.net/go/`, the request for the root gets 404 and the request
with "/" appended gets the page. -/
theorem Redirect_trailing_slash_differs :
    ("rsc.io".toList ++ "/.ping".toList =
        (Godoc.capture "git".toList "rsc.io/.ping".toList
          "https://github.com/rsc/ping".toList).importPath ∧
      Godoc.Redirect "git".toList "rsc.io/.ping".toList "https://github.com/rsc/ping".toList
        ⟨"rsc.io".toList, "/.ping".toList⟩ = .ok "pong".toList ∧
      Godoc.Redirect "git".toList "rsc.io/.ping".toList "https://github.com/rsc/ping".toList
        ⟨"rsc.io".toList, "/.ping".toList ++ "/".toList⟩ =
        .page
          { ImportRoot := "rsc.io/.ping".toList, VCS := "git".toList,
            VCSRoot := "https://github.com/rsc/ping".toList, Suffix := [] }
          "public, max-age=300".toList) ∧
    ("rsc.io".toList ++ "/x@latest".toList =
        (Godoc.capture "git".toList "rsc.io/x@latest".toList
          "https://github.com/rsc/x".toList).importPath ∧
      Godoc.Redirect "git".toList "rsc.io/x@latest".toList "https://github.com/rsc/x".toList
        ⟨"rsc.io".toList, "/x@latest".toList⟩ = .notFound ∧
      Godoc.Redirect "git".toList "rsc.io/x@latest".toList "https://github.com/rsc/x".toList
        ⟨"rsc.io".toList, "/x@latest".toList ++ "/".toList⟩ =
        .page
          { ImportRoot := "rsc.io/x@latest".toList, VCS := "git".toList,
            VCSRoot := "https://github.com/rsc/x".toList, Suffix := [] }
          "public, max-age=300".toList) ∧
    ("9fans.net".toList ++ "/go/".toList =
        (Godoc.capture "git".toList "9fans.net/go/".toList
          "https://github.com/9fans/go".toList).importPath ∧
      Godoc.Redirect "git".toList "9fans.net/go/".toList "https://github.com/9fans/go".toList
        ⟨"9fans.net".toList, "/go/".toList⟩ = .notFound ∧
      Godoc.Redirect "git".toList "9fans.net/go/".toList "https://github.com/9fans/go".toList
        ⟨"9fans.net".toList, "/go/".toList ++ "/".toList⟩ =
        .page
          { ImportRoot := "9fans.net/go/".toList, VCS := "git".toList,
            VCSRoot := "https://github.com/9fans/go".toList, Suffix := [] }
          "public, max-age=300".toList) := by
  decide

/-! ## Start-up configuration of `main.go` -/

/-- C6: for every pair of arguments, the start-up configuration of `main.go` aborts
exactly when exactly one of the two ends in "/*"; when it does not abort, `wildcard` is
true exactly when both end in "/*", the stored `importPath` and `repoPath` are the
arguments with one trailing "/*" removed in wildcard mode and the arguments themselves
otherwise. -/
theorem configure_spec (godoc vcs imp repo : Str) :
    (Main.configure godoc vcs imp repo = none ↔
      ((strings.HasSuffix imp "/*".toList = true ∧ strings.HasSuffix repo "/*".toList = false) ∨
        (strings.HasSuffix imp "/*".toList = false ∧
          strings.HasSuffix repo "/*".toList = true))) ∧
    (∀ cfg, Main.configure godoc vcs imp repo = some cfg →
      (cfg.wildcard = true ↔
        (strings.HasSuffix imp "/*".toList = true ∧
          strings.HasSuffix repo "/*".toList = true)) ∧
      (cfg.wildcard = true →
        cfg.importPath ++ "/*".toList = imp ∧ cfg.repoPath ++ "/*".toList = repo ∧
          cfg.importPath = strings.TrimSuffix imp "/*".toList ∧
          cfg.repoPath = strings.TrimSuffix repo "/*".toList) ∧
      (cfg.wildcard = false → cfg.importPath = imp ∧ cfg.repoPath = repo)) := by
  unfold Main.configure
  cases hi : strings.HasSuffix imp "/*".toList <;>
    cases hr : strings.HasSuffix repo "/*".toList
  · refine ⟨by simp, ?_⟩
    intro cfg h
    simp only [bne_self_eq_false, Bool.false_eq_true, if_false, Option.some.injEq] at h
    subst h
    simp
  · simp
  · simp
  · refine ⟨by simp, ?_⟩
    intro cfg h
    simp only [bne_self_eq_false, Bool.false_eq_true, if_false, if_true,
      Option.some.injEq] at h
    subst h
    obtain ⟨t, rfl⟩ := (strings.HasSuffix_iff _ _).1 hi
    obtain ⟨u, rfl⟩ := (strings.HasSuffix_iff _ _).1 hr
    simp [strings.TrimSuffix_append]

/-- C7 fails on the code: the arguments `9fans.net/go/` and
`https://github.com/9fans/go` are accepted, the stored `importPath` ends in "/", and
`redirect` then answers 404 to requests under the root, such as `9fans.net/go/acme`
and `9fans.net/go/`. -/
theorem configure_keeps_trailing_slash :
    Main.configure "https://godoc.org/".toList "git".toList "9fans.net/go/".toList
        "https://github.com/9fans/go".toList =
      some
        { godoc := "https://godoc.org/".toList, vcs := "git".toList,
          importPath := "9fans.net/go/".toList,
          repoPath := "https://github.com/9fans/go".toList, wildcard := false } ∧
    strings.HasSuffix "9fans.net/go/".toList "/".toList = true ∧
    Main.redirect
        { godoc := "https://godoc.org/".toList, vcs := "git".toList,
          importPath := "9fans.net/go/".toList,
          repoPath := "https://github.com/9fans/go".toList, wildcard := false }
        ⟨"9fans.net".toList, "/go/acme".toList⟩ = .notFound ∧
    Main.redirect
        { godoc := "https://godoc.org/".toList, vcs := "git".toList,
          importPath := "9fans.net/go/".toList,
          repoPath := "https://github.com/9fans/go".toList, wildcard := false }
        ⟨"9fans.net".toList, "/go/".toList⟩ = .notFound := by
  decide

/-! ## Agreement of the two handlers -/

/-- When both or neither argument ends in "/*", `main` stores what `godoc.Redirect`
captures. -/
theorem Main.configure_eq_capture (godoc vcs imp repo : Str)
    (hboth : strings.HasSuffix imp "/*".toList = strings.HasSuffix repo "/*".toList) :
    Main.configure godoc vcs imp repo =
      some
        { godoc := godoc, vcs := (Godoc.capture vcs imp repo).vcs,
          importPath := (Godoc.capture vcs imp repo).importPath,
          repoPath := (Godoc.capture vcs imp repo).repoPath,
          wildcard := (Godoc.capture vcs imp repo).wildcard } := by
  unfold Main.configure Godoc.capture
  rw [← hboth]
  cases strings.HasSuffix imp "/*".toList <;> rfl

/-- On the same stored values and the same path, `redirect` and `Godoc.serve` have the
same outcome. -/
theorem sameOutcome_serve (godoc : Str) (env : Godoc.Env) (req : Request) :
    sameOutcome
      { godoc := godoc, vcs := env.vcs, importPath := env.importPath,
        repoPath := env.repoPath, wildcard := env.wildcard }
      (Main.redirect
        { godoc := godoc, vcs := env.vcs, importPath := env.importPath,
          repoPath := env.repoPath, wildcard := env.wildcard } req)
      (Godoc.serve env (strings.TrimSuffix (req.Host ++ req.Path) ['/'])) := by
  cases hw : env.wildcard
  · rw [Main.redirect_of_not_wildcard _ req rfl]
    unfold Godoc.serve
    rw [hw]
    simp only [Bool.false_eq_true, if_false]
    split_ifs
    · trivial
    · exact ⟨rfl, rfl, rfl, rfl⟩
  · rw [Main.redirect_of_wildcard _ req rfl]
    unfold Godoc.serve
    rw [hw]
    simp only [if_true]
    split_ifs
    all_goals trivial

/-- C10: for every pair of arguments of which both or neither end in "/*", and every
request whose `URL.Path` has no trailing "/.ping" and whose `Host + URL.Path` has no
trailing "@latest", `main` accepts the arguments, and `redirect` of `main.go` and the
handler returned by `godoc.Redirect` reach the same outcome: both 404, or both a 302 to
the documentation root of the stored import path, or both a page with the same import
root, repository root and suffix. -/
theorem redirect_agrees_with_Redirect (godoc vcs imp repo : Str) (req : Request)
    (hboth : strings.HasSuffix imp "/*".toList = strings.HasSuffix repo "/*".toList)
    (hping : strings.HasSuffix req.Path "/.ping".toList = false)
    (hlatest : strings.HasSuffix (req.Host ++ req.Path) "@latest".toList = false) :
    ∃ cfg, Main.configure godoc vcs imp repo = some cfg ∧
      sameOutcome cfg (Main.redirect cfg req) (Godoc.Redirect vcs imp repo req) := by
  refine ⟨_, Main.configure_eq_capture godoc vcs imp repo hboth, ?_⟩
  unfold Godoc.Redirect
  rw [Godoc.handler_of_not_ping _ req hping, strings.TrimSuffix_of_not _ _ hlatest]
  exact sameOutcome_serve godoc _ req

/-- Witness of C10: the arguments `rsc.io/*` and `https://github.com/rsc/*`, and the
request `rsc.io/x86/x86asm`. -/
theorem redirect_agrees_with_Redirect_witness :
    strings.HasSuffix "rsc.io/*".toList "/*".toList =
      strings.HasSuffix "https://github.com/rsc/*".toList "/*".toList ∧
    strings.HasSuffix "/x86/x86asm".toList "/.ping".toList = false ∧
    strings.HasSuffix ("rsc.io".toList ++ "/x86/x86asm".toList) "@latest".toList = false ∧
    ∃ cfg, Main.configure "https://godoc.org/".toList "git".toList "rsc.io/*".toList
        "https://github.com/rsc/*".toList = some cfg ∧
      sameOutcome cfg (Main.redirect cfg ⟨"rsc.io".toList, "/x86/x86asm".toList⟩)
        (Godoc.Redirect "git".toList "rsc.io/*".toList "https://github.com/rsc/*".toList
          ⟨"rsc.io".toList, "/x86/x86asm".toList⟩) :=
  ⟨by decide, by decide, by decide,
    redirect_agrees_with_Redirect "https://godoc.org/".toList "git".toList
      "rsc.io/*".toList "https://github.com/rsc/*".toList
      ⟨"rsc.io".toList, "/x86/x86asm".toList⟩ (by decide) (by decide) (by decide)⟩
